import Mathlib

/-!
A shallow embedding of the Sub0Pub core (`src/include/sub0pub/sub0pub.hpp`):
the per-type `Broker` subscription registry with publish fan-out, the
`BinaryWriter`/`BinaryReader` framing state machine of the
`DefaultSerialisation` protocol, and the sorted buffer registry used by the
reader.  Machine integers are modelled as `Nat` (with explicit `% 2^32`
where a `uint32_t` field truncates); runtime `assert` failures are modelled
as `Except` errors; byte streams are explicit lists of bytes together with a
schedule of per-call delivery bounds.
-/

namespace Sub0

/-- Errors corresponding to the runtime `assert` checks in the source
(`SUB0PUB_ASSERT` defaults to `true`, so a failing check aborts). -/
inductive Err where
  | capacityExceeded     -- `assert(subscriptionCount < subscriptionCapacity)` in `CheckT::onSubscription`
  | unsubscribeMissing   -- `assert(std::distance(iEnd, iPend) == -1)` in `Broker::unsubscribe`
  | unknownType          -- `assert((void*)0 == "Data of 'expectedTypeName' is not size ...")` in `stateComplete`
  | framingLogic         -- `assert((void*)0 == "Agh - some logic is wrong!")` in `stateComplete`
  | missingPublisher     -- `assert(currentBuffer_.bufferPublisher)` in `nextState`
  | framingCorruption    -- `assert(checkStateOk(currentState))` in `nextState` (postfix mismatch)
  | lateRegistration     -- `assert(!currentBuffer_.buffer)` in `setBufferPublisher`
  deriving DecidableEq, Repr

/-! ## Broker (per-`Data` subscription registry)

`Broker<Data>` keeps a MonoState table `subscriptions[cMaxSubscriptions]`
with a `subscriptionCount`.  A subscriber is identified by its address; we
model the identity as a `Nat` id, and the virtual `filter` method as a
function on the payload type. -/

/-- `Subscribe<Data>`: identity (address) plus the virtual `filter`
predicate.  The virtual `receive` call is observed through the publish
trace rather than stored. -/
structure Subscriber (α : Type) where
  id : Nat
  filter : α → Bool

/-- `Broker<Data>::cMaxSubscriptions = 8U`. -/
def cMaxSubscriptions : Nat := 8

/-- The MonoState `Broker<Data>::State`: the subscription table in
registration order (`subscriptions[0..subscriptionCount)`). -/
structure BrokerState (α : Type) where
  subscriptions : List (Subscriber α)

/-- `Broker::Broker(Subscribe<Data>*)`: `Check::onSubscription` asserts
`subscriptionCount < cMaxSubscriptions`, then appends the subscriber at
`subscriptions[subscriptionCount++]`. -/
def subscribe {α : Type} (st : BrokerState α) (s : Subscriber α) :
    Except Err (BrokerState α) :=
  if st.subscriptions.length < cMaxSubscriptions then
    .ok ⟨st.subscriptions ++ [s]⟩
  else
    .error .capacityExceeded

/-- `Broker::unsubscribe(Subscribe<Data>*)`: `std::remove` shifts every
entry not equal to the handle forward (a stable removal of all matches),
the assert demands exactly one entry was removed, then
`--subscriptionCount`. -/
def unsubscribe {α : Type} (st : BrokerState α) (h : Nat) :
    Except Err (BrokerState α) :=
  if st.subscriptions.countP (fun s => s.id == h) = 1 then
    .ok ⟨st.subscriptions.filter (fun s => s.id != h)⟩
  else
    .error .unsubscribeMissing

/-- One `receive` event: the subscriber that received and the value it
received. -/
structure RxEvent (α : Type) where
  sid : Nat
  value : α

instance {α : Type} [DecidableEq α] : DecidableEq (RxEvent α) := by
  intro a b
  cases a; cases b
  simp only [RxEvent.mk.injEq]
  exact instDecidableAnd

/-- The loop body of `Broker::publish(const Data&)`: for each subscription
in table order, `if (subscription->filter(data)) subscription->receive(data)`.
Returns the trace of `receive` calls in the order they are made. -/
def publishTrace {α : Type} : List (Subscriber α) → α → List (RxEvent α)
  | [], _ => []
  | s :: rest, d =>
      (if s.filter d then [⟨s.id, d⟩] else []) ++ publishTrace rest d

/-- `Broker::publish` on a broker state. -/
def publish {α : Type} (st : BrokerState α) (d : α) : List (RxEvent α) :=
  publishTrace st.subscriptions d

/-! ### Sequences of register/unregister operations (claim C3) -/

/-- One registry operation: subscriber construction (register) or
subscriber destruction (unregister). -/
inductive RegOp (α : Type) where
  | reg (s : Subscriber α)
  | unreg (id : Nat)

/-- Run one operation; a failing operation (a tripped assertion) leaves the
table unchanged. -/
def runOp {α : Type} (st : BrokerState α) : RegOp α → BrokerState α
  | .reg s => ((subscribe st s).toOption).getD st
  | .unreg i => ((unsubscribe st i).toOption).getD st

/-- Run a sequence of operations from the empty broker state. -/
def runOps {α : Type} (ops : List (RegOp α)) : BrokerState α :=
  ops.foldl runOp ⟨[]⟩

/-! ## Wire format (`DefaultSerialisation`)

The protocol structs are written/read through `stream.write`/`stream.read`
on their native byte layout; per spec §6 the layout is fixed to
little-endian with no padding.  A byte is a `Nat` (< 256 for in-range
data). -/

/-- Little-endian bytes of a 32-bit value (truncates to the low 32 bits,
as storing into a `uint32_t` does). -/
def le32 (x : Nat) : List Nat :=
  [x % 256, x / 256 % 256, x / 65536 % 256, x / 16777216 % 256]

/-- `utility::FourCC<a,b,c,d>::value = (((((d << 8) | c) << 8) | b) << 8) | a`. -/
def fourCC (a b c d : Nat) : Nat :=
  ((d * 256 + c) * 256 + b) * 256 + a

/-- `DefaultSerialisation::Prefix::magic = FourCC<'S','U','B','0'>::value`. -/
def prefixMagic : Nat := fourCC 83 85 66 48

/-- `utility::write<Prefix_t>`: writes the bytes of a default-constructed
`Prefix` (the 4-byte magic). -/
def prefixWireBytes : List Nat := le32 prefixMagic

/-- `utility::write<Postfix_t>`: writes the bytes of a default-constructed
`Postfix` (`delim = '\n'`). -/
def postfixWireBytes : List Nat := [10]

/-- `DefaultSerialisation::Header`: `{ uint32_t typeId; uint32_t dataBytes; }`. -/
structure Header where
  typeId : Nat
  dataBytes : Nat
  deriving DecidableEq, Repr

/-- `Header::Header(const Data&)` in the default configuration
(`SUB0PUB_TYPEIDNAME` disabled): `typeId(12345), dataBytes(sizeof(Data))`.
The payload type enters only through its byte size. -/
def mkDefaultHeader (payloadSize : Nat) : Header :=
  ⟨12345, payloadSize % 4294967296⟩

/-- Native little-endian bytes of a `Header` (two packed `uint32_t`). -/
def headerWireBytes (h : Header) : List Nat :=
  le32 h.typeId ++ le32 h.dataBytes

/-- An `OStream` sink accumulating written bytes; `stream.write(buf, n)`
appends the `n` bytes. -/
def ostreamWrite (sink : List Nat) (bytes : List Nat) : List Nat :=
  sink ++ bytes

/-- `BinaryWriter<Prefix,Header,Postfix>::write(stream, data)` of
`DefaultSerialisation::Writer`: writes the prefix, then
`Header_t header(data)`, then the raw payload bytes, then the postfix. -/
def binaryWriterWrite (sink : List Nat) (payload : List Nat) : List Nat :=
  let sink := ostreamWrite sink prefixWireBytes
  let header := mkDefaultHeader payload.length
  let sink := ostreamWrite sink (headerWireBytes header)
  let sink := ostreamWrite sink payload
  ostreamWrite sink postfixWireBytes

/-- `FrameWriter.write` output on an empty sink. -/
def binaryWrite (payload : List Nat) : List Nat :=
  binaryWriterWrite [] payload

/-! ## Buffer registry (`BinaryReader`'s sorted `bufferRegistry_`)

Entries are `std::pair<Header_t, BufferPublisher>`; the pair's
`BufferPublisher` holds the destination buffer pointer, its byte size and
the completion-notify object.  We model the buffer as its current byte
contents and the notify object as a `Nat` id. -/

/-- One `HeaderToBufferPublisher` registry entry. -/
structure RegEntry where
  header : Header       -- the pair's `first`: `Header_t(buffer)`
  bufSize : Nat         -- `BufferPublisher::bufferSize = sizeof(buffer)`
  pubId : Nat           -- identity of the `IBufferPublish*`
  content : List Nat    -- current bytes of the destination buffer
  deriving DecidableEq, Repr

/-- `cMaxDataBufferCount = 64U`: capacity of `bufferRegistry_`. -/
def cMaxDataBufferCount : Nat := 64

/-- `setBufferPublisher(const HeaderToBufferPublisher&)`:
`std::upper_bound` on the registry ordered by `Header::operator<`
(which compares `typeId` only), then insert at that point via
`std::rotate`.  On the sorted registry this places the new entry after
every existing entry whose `typeId` is not greater. -/
def insertEntry (e : RegEntry) : List RegEntry → List RegEntry
  | [] => [e]
  | x :: xs =>
      if e.header.typeId < x.header.typeId then e :: x :: xs
      else x :: insertEntry e xs

/-- `findBufferPublisher(header)`: `std::lower_bound` with the same
`typeId`-only comparator (on the sorted registry this is the index of the
first entry whose `typeId` is not below the target), then
`iFind->first == header` compares the full header (`typeId` and
`dataBytes`).  Returns the index of the found entry. -/
def findBufferPublisher (reg : List RegEntry) (h : Header) : Option Nat :=
  match reg.get? ((reg.takeWhile (fun x => x.header.typeId < h.typeId)).length) with
  | none => none
  | some x =>
      if x.header = h then
        some ((reg.takeWhile (fun x => x.header.typeId < h.typeId)).length)
      else none

/-! ## Reader state machine (`BinaryReader<Prefix, Header, Postfix>`)

`DefaultSerialisation::Reader` instantiates the reader with non-void
prefix and postfix types.  `currentBuffer_` is a `{char* buffer;
uint_fast16_t bufferSize; IBufferPublish* bufferPublisher}` whose pointer
advances as bytes arrive; we model the pointer as a destination tag plus an
offset, and `buffer == nullptr` as the tag `Dest.null`. -/

/-- The region `currentBuffer_.buffer` points into (`null` = `nullptr`). -/
inductive Dest where
  | null                -- nullptr (the unimplemented Prefix stage, or a failed lookup)
  | headerField         -- `(char*)&header_`
  | postfixField        -- `(char*)&postfix_`
  | dataBuffer (i : Nat) -- the registered buffer of registry entry `i`
  deriving DecidableEq, Repr

/-- Model of `BufferPublisher currentBuffer_`: destination region, bytes
already written into it (the pointer offset), bytes still required
(`bufferSize`), and the completion-notify object (`bufferPublisher`). -/
structure CurrentBuffer where
  dest : Dest
  pos : Nat
  remaining : Nat
  pub : Option Nat
  deriving DecidableEq, Repr

/-- `enum class State { Prefix, Header, Data, Postfix }`. -/
inductive RState where
  | prefixStage | header | data | postfixStage
  deriving DecidableEq, Repr

/-- The `BinaryReader` object state.  `headerBuf` is the 8 raw bytes of the
`header_` field, `postfixBuf` the single byte of `postfix_`
(default-initialised to `'\n'` by the `Postfix` member initialiser). -/
structure ReaderState where
  current : CurrentBuffer
  state : RState
  headerBuf : List Nat
  postfixBuf : List Nat
  registry : List RegEntry
  deriving DecidableEq, Repr

/-- `BinaryReader()` constructor: `currentBuffer_()` value-initialises to
`{nullptr, 0, nullptr}`, `state_()` to `State::Prefix`, the registry is
empty.  `header_()` is default-constructed with indeterminate bytes,
modelled as zeros (they are fully overwritten before first use). -/
def initialReader : ReaderState :=
  { current := ⟨.null, 0, 0, none⟩
    state := .prefixStage
    headerBuf := List.replicate 8 0
    postfixBuf := [10]
    registry := [] }

/-- The public `setBufferPublisher(Data& buffer, IBufferPublish*)`:
asserts `!currentBuffer_.buffer` (no registration once reading has begun),
then inserts `{Header_t(buffer), {&buffer, sizeof(buffer), publisher}}`
into the sorted registry.  The in-memory buffer starts with its current
(zero-modelled) contents. -/
def setBufferPublisher (rs : ReaderState) (size : Nat) (pubId : Nat) :
    Except Err ReaderState :=
  if rs.current.dest = Dest.null then
    .ok { rs with
          registry := insertEntry
            ⟨mkDefaultHeader size, size, pubId, List.replicate size 0⟩
            rs.registry }
  else
    .error .lateRegistration

/-- Decode little-endian bytes to a value (inverse of `le32` on in-range
bytes); reading the packed `uint32_t` fields of `header_`. -/
def leDec (bs : List Nat) : Nat :=
  bs.foldr (fun b acc => acc * 256 + b) 0

/-- The `Header_t header_` value currently held in the 8-byte field. -/
def decodeHeader (buf : List Nat) : Header :=
  ⟨leDec (buf.take 4), leDec ((buf.drop 4).take 4)⟩

/-- `findStateBuffer(state)`: the destination buffer for each stage.
`Prefix` is unimplemented and yields `{nullptr, 0, nullptr}`; `Header`
targets the 8-byte `header_`; `Data` resolves the registry via
`findBufferPublisher(header_)`; `Postfix` targets the 1-byte `postfix_`,
keeping the *current* buffer's publisher. -/
def findStateBuffer (rs : ReaderState) (s : RState) : CurrentBuffer :=
  match s with
  | .prefixStage => ⟨.null, 0, 0, none⟩
  | .header => ⟨.headerField, 0, 8, none⟩
  | .data =>
      match findBufferPublisher rs.registry (decodeHeader rs.headerBuf) with
      | some i =>
          match rs.registry.get? i with
          | some e => ⟨.dataBuffer i, 0, e.bufSize, some e.pubId⟩
          | none => ⟨.null, 0, 0, none⟩
      | none => ⟨.null, 0, 0, none⟩
  | .postfixStage => ⟨.postfixField, 0, 1, rs.current.pub⟩

/-- Overwrite `bytes.length` bytes of `content` starting at byte `pos`
(a `memcpy` into `buffer + pos`). -/
def overwriteAt (content : List Nat) (pos : Nat) (bytes : List Nat) : List Nat :=
  content.take pos ++ bytes ++ content.drop (pos + bytes.length)

/-- Replace the element at index `i`. -/
def updateNth {β : Type} (l : List β) (i : Nat) (f : β → β) : List β :=
  match l, i with
  | [], _ => []
  | x :: xs, 0 => f x :: xs
  | x :: xs, n + 1 => x :: updateNth xs n f

/-- Write freshly read bytes through `currentBuffer_.buffer`, then advance
the pointer (`buffer += readCount`) and shrink the requirement
(`bufferSize -= readCount`). -/
def writeDest (rs : ReaderState) (bytes : List Nat) : ReaderState :=
  let cur := rs.current
  let rs' :=
    match cur.dest with
    | .null => rs
    | .headerField => { rs with headerBuf := overwriteAt rs.headerBuf cur.pos bytes }
    | .postfixField => { rs with postfixBuf := overwriteAt rs.postfixBuf cur.pos bytes }
    | .dataBuffer i =>
        let upd := fun (e : RegEntry) =>
          { e with content := overwriteAt e.content cur.pos bytes }
        { rs with registry := updateNth rs.registry i upd }
  { rs' with current := { cur with
      pos := cur.pos + bytes.length,
      remaining := cur.remaining - bytes.length } }

/-! ### Byte source

`IStream::read(buffer, n)` returns up to `n` bytes.  We model the source
as the remaining byte list plus a schedule: the `k`-th entry bounds how
many bytes the source is willing to deliver on the `k`-th read call
(zero-byte deliveries included); an exhausted schedule delivers nothing.
This captures arbitrary chopping of the stream. -/

structure StreamState where
  data : List Nat
  sched : List Nat
  deriving DecidableEq, Repr

/-- One `stream.read(buffer, n)` call. -/
def streamRead (st : StreamState) (n : Nat) : List Nat × StreamState :=
  match st.sched with
  | [] => ([], st)
  | k :: rest =>
      let m := min n (min k st.data.length)
      (st.data.take m, ⟨st.data.drop m, rest⟩)

/-- `nextState(currentState)` for non-void `Prefix_t`/`Postfix_t`:
`Prefix → Header → Data → Postfix`; leaving `Postfix` asserts that the
publisher is present and that `checkStateOk` holds (`postfix_ ==
Postfix_t()`, i.e. the delimiter byte is `'\n'`), fires
`onBufferComplete()` on the publisher, and returns to `Prefix`.
The result carries the completion events raised. -/
def nextStateFrom (rs : ReaderState) : Except Err (RState × List Nat) :=
  match rs.state with
  | .prefixStage => .ok (.header, [])
  | .header => .ok (.data, [])
  | .data => .ok (.postfixStage, [])
  | .postfixStage =>
      match rs.current.pub with
      | none => .error .missingPublisher
      | some p =>
          if rs.postfixBuf = [10] then .ok (.prefixStage, [p])
          else .error .framingCorruption

/-- `stateComplete()`: advance `state_`, rebind `currentBuffer_` via
`findStateBuffer`, and if the new buffer is null either assert the
size/type mismatch (when entering `Data`) or the logic-error assert. -/
def stateComplete (rs : ReaderState) : Except Err (Bool × ReaderState × List Nat) := do
  let (s', evs) ← nextStateFrom rs
  let rs' := { rs with state := s' }
  let cb := findStateBuffer rs' s'
  let rs'' := { rs' with current := cb }
  if cb.dest = Dest.null then
    if s' = RState.data then .error .unknownType
    else .error .framingLogic
  else
    .ok (true, rs'', evs)

/-- `readBuffer(stream)`: read up to `currentBuffer_.bufferSize` bytes,
advance the buffer cursor, and when the stage requirement reaches zero run
`stateComplete`; otherwise report `false` (stage incomplete). -/
def readBufferStep (rs : ReaderState) (st : StreamState) :
    Except Err (Bool × ReaderState × StreamState × List Nat) :=
  let (bytes, st') := streamRead st rs.current.remaining
  let rs' := writeDest rs bytes
  if rs'.current.remaining = 0 then
    match stateComplete rs' with
    | .error e => .error e
    | .ok (b, rs'', evs) => .ok (b, rs'', st', evs)
  else
    .ok (false, rs', st', [])

/-- Result of one `read(stream)` call: the returned flag, the reader and
stream states afterwards, and the `onBufferComplete` events fired. -/
structure ReadResult where
  completed : Bool
  reader : ReaderState
  stream : StreamState
  events : List Nat
  deriving DecidableEq, Repr

/-- The loop of `read(stream)`: `while (readBuffer(stream)) { if (state_ ==
State::Header) return true; } return false;`, fuel-indexed (the fuel is
spent one unit per loop iteration). -/
def readLoop : Nat → ReaderState → StreamState → List Nat → Except Err ReadResult
  | 0, rs, st, evs => .ok ⟨false, rs, st, evs⟩
  | fuel + 1, rs, st, evs =>
      match readBufferStep rs st with
      | .error e => .error e
      | .ok (true, rs', st', evs') =>
          if rs'.state = RState.header then .ok ⟨true, rs', st', evs ++ evs'⟩
          else readLoop fuel rs' st' (evs ++ evs')
      | .ok (false, rs', st', evs') => .ok ⟨false, rs', st', evs ++ evs'⟩

/-- `read(stream)`.  Each loop iteration performs one stream read; once the
schedule is exhausted the loop can only run bounded further steps, so
`sched.length + 4` iterations always suffice (established by
`readLoop_fuel_irrelevant`-style reasoning in the theorems below). -/
def readCall (rs : ReaderState) (st : StreamState) : Except Err ReadResult :=
  readLoop (st.sched.length + 4) rs st []

/-! ## Lemmas about the broker -/

/-- Members of the publish trace carry the published value. -/
theorem publishTrace_value {α : Type} (subs : List (Subscriber α)) (d : α) :
    ∀ e ∈ publishTrace subs d, e.value = d := by
  induction subs with
  | nil => intro e he; simp [publishTrace] at he
  | cons s rest ih =>
      intro e he
      simp only [publishTrace, List.mem_append] at he
      rcases he with he | he
      · split at he <;> simp_all
      · exact ih e he

/-- The publish trace is the registration-ordered sublist of events for the
subscribers whose filter accepts the value. -/
theorem publishTrace_sublist {α : Type} (subs : List (Subscriber α)) (d : α) :
    (publishTrace subs d).Sublist (subs.map (fun t => RxEvent.mk t.id d)) := by
  induction subs with
  | nil => simp [publishTrace]
  | cons s rest ih =>
      simp only [publishTrace, List.map_cons]
      split
      · simpa using ih.cons₂ (⟨s.id, d⟩ : RxEvent α)
      · simpa using ih.cons (⟨s.id, d⟩ : RxEvent α)

/-- A handle absent from the subscription table never appears in the
publish trace. -/
theorem publishTrace_not_mem {α : Type} (subs : List (Subscriber α)) (d : α)
    (h : Nat) (habs : ∀ t ∈ subs, t.id ≠ h) :
    ∀ e ∈ publishTrace subs d, e.sid ≠ h := by
  induction subs with
  | nil => intro e he; simp [publishTrace] at he
  | cons s rest ih =>
      intro e he
      simp only [publishTrace, List.mem_append] at he
      rcases he with he | he
      · split at he
        · simp only [List.mem_singleton] at he
          subst he
          exact habs s (by simp)
        · simp at he
      · exact ih (fun t ht => habs t (by simp [ht])) e he

/-- With distinct subscriber identities, a registered subscriber's event
count in the publish trace is one when its filter accepts and zero
otherwise. -/
theorem publishTrace_count {α : Type} [DecidableEq α]
    (subs : List (Subscriber α)) (d : α) (s : Subscriber α)
    (hnd : (subs.map Subscriber.id).Nodup) (hs : s ∈ subs) :
    (publishTrace subs d).count ⟨s.id, d⟩ = if s.filter d then 1 else 0 := by
  induction subs with
  | nil => simp at hs
  | cons t rest ih =>
      simp only [List.map_cons, List.nodup_cons] at hnd
      rcases List.mem_cons.mp hs with hst | hsr
      · subst hst
        have habs : ∀ u ∈ rest, u.id ≠ s.id := by
          intro u hu hequ
          exact hnd.1 (hequ ▸ List.mem_map_of_mem Subscriber.id hu)
        have hcount0 : (publishTrace rest d).count (⟨s.id, d⟩ : RxEvent α) = 0 := by
          rw [List.count_eq_zero]
          intro hmem
          exact publishTrace_not_mem rest d s.id habs _ hmem rfl
        simp only [publishTrace]
        split
        · simp [List.count_append, List.count_singleton, hcount0]
        · simpa using hcount0
      · have htid : t.id ≠ s.id := by
          intro hequ
          exact hnd.1 (hequ ▸ List.mem_map_of_mem Subscriber.id hsr)
        have := ih hnd.2 hsr
        simp only [publishTrace]
        split
        · simp only [List.count_append, this]
          have : ((⟨t.id, d⟩ : RxEvent α) = ⟨s.id, d⟩) = False := by
            simp [RxEvent.mk.injEq, htid]
          simp [List.count_singleton, List.count_cons, this]
        · simpa using this

/-- A list in which a predicate holds exactly once splits around the unique
matching element. -/
theorem countP_eq_one_decomp {β : Type} (p : β → Bool) (l : List β)
    (h : l.countP p = 1) :
    ∃ l1 e l2, l = l1 ++ e :: l2 ∧ p e = true ∧
      (∀ x ∈ l1, p x = false) ∧ (∀ x ∈ l2, p x = false) := by
  induction l with
  | nil => simp [List.countP_nil] at h
  | cons x xs ih =>
      by_cases hx : p x = true
      · have hxs : xs.countP p = 0 := by
          have h2 := h
          simp only [List.countP_cons, hx, if_true] at h2
          omega
        refine ⟨[], x, xs, by simp, hx, by simp, ?_⟩
        intro y hy
        have := List.countP_eq_zero.mp hxs y hy
        simpa using this
      · have hx' : p x = false := by simpa using hx
        have hxs : xs.countP p = 1 := by
          simp only [List.countP_cons, hx'] at h
          simpa using h
        obtain ⟨l1, e, l2, heq, hpe, hl1, hl2⟩ := ih hxs
        exact ⟨x :: l1, e, l2, by simp [heq], hpe,
          by intro y hy; rcases List.mem_cons.mp hy with rfl | hy
             · exact hx'
             · exact hl1 y hy, hl2⟩

/-- Filtering with the negated predicate erases exactly the unique match. -/
theorem filter_not_of_decomp {β : Type} (p : β → Bool) (l1 l2 : List β) (e : β)
    (hpe : p e = true) (hl1 : ∀ x ∈ l1, p x = false) (hl2 : ∀ x ∈ l2, p x = false) :
    (l1 ++ e :: l2).filter (fun x => ! p x) = l1 ++ l2 := by
  rw [List.filter_append, List.filter_cons]
  have h1 : l1.filter (fun x => ! p x) = l1 :=
    List.filter_eq_self.mpr (fun x hx => by simp [hl1 x hx])
  have h2 : l2.filter (fun x => ! p x) = l2 :=
    List.filter_eq_self.mpr (fun x hx => by simp [hl2 x hx])
  simp [h1, h2, hpe]

/-! ## Claim theorems for the broker -/

/-- **C2.** For every `publish(value)` call on a broker state (with
subscriber identities distinct, as addresses are): each registered
subscriber whose filter accepts the value receives exactly one
`receive(value)` call and one whose filter rejects receives none; the
calls occur in registration order (the trace is a sublist of the
registration-ordered event list); every call delivers the published value;
and a subscriber unregistered before the publish call receives no call. -/
theorem broker_publish_fanout {α : Type} [DecidableEq α]
    (st st' : BrokerState α) (d : α) (s : Subscriber α) (h : Nat)
    (hnd : (st.subscriptions.map Subscriber.id).Nodup)
    (hs : s ∈ st.subscriptions)
    (hun : unsubscribe st h = .ok st') :
    (publish st d).count ⟨s.id, d⟩ = (if s.filter d then 1 else 0) ∧
    (publish st d).Sublist (st.subscriptions.map (fun t => RxEvent.mk t.id d)) ∧
    (∀ e ∈ publish st d, e.value = d) ∧
    (∀ e ∈ publish st' d, e.sid ≠ h) := by
  refine ⟨publishTrace_count st.subscriptions d s hnd hs,
    publishTrace_sublist st.subscriptions d,
    publishTrace_value st.subscriptions d, ?_⟩
  unfold unsubscribe at hun
  split at hun
  · have hst' : st' = ⟨st.subscriptions.filter (fun s => s.id != h)⟩ := by
      cases hun; rfl
    subst hst'
    refine publishTrace_not_mem _ d h ?_
    intro t ht
    have := (List.mem_filter.mp ht).2
    simpa using this
  · cases hun

/-- **C2 witness.** A concrete broker with three subscribers, one filtered
out and one unsubscribed. -/
theorem broker_publish_fanout_witness :
    (publish (⟨[⟨1, fun _ => true⟩, ⟨2, fun v => v ≠ 0⟩, ⟨3, fun _ => true⟩]⟩ :
        BrokerState Nat) 0).count ⟨1, 0⟩ = (if true then 1 else 0) ∧
    (publish (⟨[⟨1, fun _ => true⟩, ⟨2, fun v => v ≠ 0⟩, ⟨3, fun _ => true⟩]⟩ :
        BrokerState Nat) 0).Sublist
      (([⟨1, fun _ => true⟩, ⟨2, fun v => v ≠ 0⟩, ⟨3, fun _ => true⟩] :
        List (Subscriber Nat)).map (fun t => RxEvent.mk t.id 0)) ∧
    (∀ e ∈ publish (⟨[⟨1, fun _ => true⟩, ⟨2, fun v => v ≠ 0⟩, ⟨3, fun _ => true⟩]⟩ :
        BrokerState Nat) 0, e.value = 0) ∧
    (∀ e ∈ publish (⟨[⟨2, fun v => v ≠ 0⟩, ⟨3, fun _ => true⟩]⟩ : BrokerState Nat) 0,
      e.sid ≠ 1) := by
  have h := broker_publish_fanout
    (⟨[⟨1, fun _ => true⟩, ⟨2, fun v => v ≠ 0⟩, ⟨3, fun _ => true⟩]⟩ : BrokerState Nat)
    (⟨[⟨2, fun v => v ≠ 0⟩, ⟨3, fun _ => true⟩]⟩ : BrokerState Nat)
    0 ⟨1, fun _ => true⟩ 1 (by simp) (by simp) (by rfl)
  simpa using h

/-- One registry operation cannot push the table past the capacity. -/
theorem runOp_length_le {α : Type} (st : BrokerState α) (op : RegOp α)
    (hle : st.subscriptions.length ≤ cMaxSubscriptions) :
    (runOp st op).subscriptions.length ≤ cMaxSubscriptions := by
  cases op with
  | reg s =>
      by_cases hc : st.subscriptions.length < cMaxSubscriptions
      · have : runOp st (RegOp.reg s) = ⟨st.subscriptions ++ [s]⟩ := by
          simp [runOp, subscribe, if_pos hc, Except.toOption]
        rw [this]
        simp only [List.length_append, List.length_singleton]
        omega
      · have : runOp st (RegOp.reg s) = st := by
          simp [runOp, subscribe, if_neg hc, Except.toOption]
        rw [this]
        exact hle
  | unreg i =>
      by_cases hc : st.subscriptions.countP (fun s => s.id == i) = 1
      · have : runOp st (RegOp.unreg i) =
            ⟨st.subscriptions.filter (fun s => s.id != i)⟩ := by
          simp [runOp, unsubscribe, if_pos hc, Except.toOption]
        rw [this]
        calc (st.subscriptions.filter (fun s => s.id != i)).length
            ≤ st.subscriptions.length := List.length_filter_le _ _
          _ ≤ cMaxSubscriptions := hle
      · have : runOp st (RegOp.unreg i) = st := by
          simp [runOp, unsubscribe, if_neg hc, Except.toOption]
        rw [this]
        exact hle

/-- Any operation sequence keeps the table within capacity. -/
theorem runOps_length_le {α : Type} (ops : List (RegOp α)) :
    (runOps ops).subscriptions.length ≤ cMaxSubscriptions := by
  have key : ∀ (l : List (RegOp α)) (st : BrokerState α),
      st.subscriptions.length ≤ cMaxSubscriptions →
      (l.foldl runOp st).subscriptions.length ≤ cMaxSubscriptions := by
    intro l
    induction l with
    | nil => intro st hst; simpa using hst
    | cons op rest ih =>
        intro st hst
        exact ih (runOp st op) (runOp_length_le st op hst)
  exact key ops ⟨[]⟩ (by simp [cMaxSubscriptions])

/-- **C3.** For every sequence of register/unregister operations on a
broker with capacity `cMaxSubscriptions = 8`, the subscriber count never
exceeds the capacity; and registering into a full table fails with the
capacity assertion instead of being admitted. -/
theorem broker_capacity {α : Type} (ops : List (RegOp α))
    (st : BrokerState α) (s : Subscriber α)
    (hfull : st.subscriptions.length = cMaxSubscriptions) :
    (runOps ops).subscriptions.length ≤ cMaxSubscriptions ∧
    subscribe st s = .error .capacityExceeded := by
  refine ⟨runOps_length_le ops, ?_⟩
  unfold subscribe
  rw [hfull]
  simp

/-- **C3 witness.** Nine consecutive registrations on one broker: the
table holds at most eight, and the ninth registration errs. -/
theorem broker_capacity_witness :
    (runOps ((List.range 9).map
      (fun i => RegOp.reg (⟨i, fun _ => true⟩ : Subscriber Nat)))).subscriptions.length
        ≤ cMaxSubscriptions ∧
    subscribe (⟨(List.range 8).map (fun i => ⟨i, fun _ => true⟩)⟩ : BrokerState Nat)
        ⟨8, fun _ => true⟩ = .error .capacityExceeded :=
  broker_capacity ((List.range 9).map (fun i => RegOp.reg ⟨i, fun _ => true⟩))
    ⟨(List.range 8).map (fun i => ⟨i, fun _ => true⟩)⟩ ⟨8, fun _ => true⟩ (by rfl)

/-- **C7.** `unsubscribe` on a handle present exactly once removes exactly
that entry, preserving the order of the rest (stable remove); on an absent
handle it fails with the removal assertion, leaving the table unchanged
(the error result admits no state change). -/
theorem broker_unsubscribe_stable {α : Type} (st : BrokerState α) (h : Nat) :
    (st.subscriptions.countP (fun s => s.id == h) = 1 →
      ∃ l1 e l2, st.subscriptions = l1 ++ e :: l2 ∧ e.id = h ∧
        (∀ x ∈ l1, x.id ≠ h) ∧ (∀ x ∈ l2, x.id ≠ h) ∧
        unsubscribe st h = .ok ⟨l1 ++ l2⟩) ∧
    ((∀ x ∈ st.subscriptions, x.id ≠ h) →
      unsubscribe st h = .error .unsubscribeMissing) := by
  constructor
  · intro hone
    obtain ⟨l1, e, l2, heq, hpe, hl1, hl2⟩ :=
      countP_eq_one_decomp (fun s => s.id == h) st.subscriptions hone
    refine ⟨l1, e, l2, heq, by simpa using hpe,
      fun x hx => by simpa using hl1 x hx,
      fun x hx => by simpa using hl2 x hx, ?_⟩
    unfold unsubscribe
    rw [if_pos hone]
    have : st.subscriptions.filter (fun s => s.id != h) = l1 ++ l2 := by
      rw [heq]
      exact filter_not_of_decomp (fun s => s.id == h) l1 l2 e hpe hl1 hl2
    rw [this]
  · intro habs
    have hzero : st.subscriptions.countP (fun s => s.id == h) = 0 :=
      List.countP_eq_zero.mpr (fun x hx => by simpa using habs x hx)
    unfold unsubscribe
    rw [hzero]
    simp

/-- **C7 witness.** A three-entry table: removing the middle handle is a
stable single removal; removing an absent handle errs. -/
theorem broker_unsubscribe_stable_witness :
    ((⟨[⟨1, fun _ => true⟩, ⟨2, fun _ => true⟩, ⟨3, fun _ => true⟩]⟩ :
        BrokerState Nat).subscriptions.countP (fun s => s.id == 2) = 1 →
      ∃ l1 e l2,
        (⟨[⟨1, fun _ => true⟩, ⟨2, fun _ => true⟩, ⟨3, fun _ => true⟩]⟩ :
          BrokerState Nat).subscriptions = l1 ++ e :: l2 ∧ e.id = 2 ∧
        (∀ x ∈ l1, x.id ≠ 2) ∧ (∀ x ∈ l2, x.id ≠ 2) ∧
        unsubscribe (⟨[⟨1, fun _ => true⟩, ⟨2, fun _ => true⟩, ⟨3, fun _ => true⟩]⟩ :
          BrokerState Nat) 2 = .ok ⟨l1 ++ l2⟩) ∧
    ((∀ x ∈ (⟨[⟨1, fun _ => true⟩, ⟨2, fun _ => true⟩, ⟨3, fun _ => true⟩]⟩ :
        BrokerState Nat).subscriptions, x.id ≠ 2) →
      unsubscribe (⟨[⟨1, fun _ => true⟩, ⟨2, fun _ => true⟩, ⟨3, fun _ => true⟩]⟩ :
        BrokerState Nat) 2 = .error .unsubscribeMissing) :=
  broker_unsubscribe_stable
    (⟨[⟨1, fun _ => true⟩, ⟨2, fun _ => true⟩, ⟨3, fun _ => true⟩]⟩ : BrokerState Nat) 2

/-! ## Claim theorems for the wire format -/

/-- **C8 counterexample.** The claim's byte count is wrong: one frame for a
4-byte payload is not 13 bytes (the prefix is 4 bytes, the header 8, the
payload 4 and the postfix 1 — 17 bytes in total). -/
theorem writer_frame_not_13_bytes :
    ¬ (binaryWrite [7, 0, 0, 0]).length = 13 := by decide

/-- **C8 (amended).** One `write` call emits, in order: the 4-byte prefix
magic, the header `{typeId, dataBytes = sizeof(T)}` as two little-endian
32-bit words, the raw payload bytes with no padding, and the 1-byte
postfix delimiter `'\n'` — `13 + n` bytes for an `n`-byte payload, e.g.
exactly 17 bytes for a 4-byte payload. -/
theorem writer_frame_layout (payload : List Nat) :
    binaryWriterWrite [] payload =
      le32 prefixMagic ++ le32 (mkDefaultHeader payload.length).typeId ++
        le32 (mkDefaultHeader payload.length).dataBytes ++ payload ++ [10] ∧
    (binaryWrite payload).length = 13 + payload.length ∧
    (binaryWrite [7, 0, 0, 0]).length = 17 := by
  refine ⟨by simp [binaryWriterWrite, ostreamWrite, prefixWireBytes,
    headerWireBytes, postfixWireBytes], ?_, by decide⟩
  simp only [binaryWrite, binaryWriterWrite, ostreamWrite, prefixWireBytes,
    headerWireBytes, postfixWireBytes, le32, List.length_append]
  simp [prefixMagic, fourCC]
  omega

/-- **C9.** In the default configuration (`SUB0PUB_TYPEIDNAME` disabled)
the header built for any payload carries the constant `typeId = 12345`
irrespective of the payload type; two payload types yield headers that
differ only in `dataBytes` (headers are equal exactly when the payload
sizes agree modulo the 32-bit truncation); hence the registry lookup,
keyed on the full header, cannot distinguish payload types of equal
size. -/
theorem header_constant_typeId (n m : Nat) (reg : List RegEntry) :
    (mkDefaultHeader n).typeId = 12345 ∧
    (mkDefaultHeader n).typeId = (mkDefaultHeader m).typeId ∧
    (mkDefaultHeader n = mkDefaultHeader m ↔
      n % 4294967296 = m % 4294967296) ∧
    (n % 4294967296 = m % 4294967296 →
      findBufferPublisher reg (mkDefaultHeader n) =
        findBufferPublisher reg (mkDefaultHeader m)) := by
  refine ⟨rfl, rfl, ?_, ?_⟩
  · constructor
    · intro hmk
      simpa [mkDefaultHeader] using congrArg Header.dataBytes hmk
    · intro hsz
      simp [mkDefaultHeader, hsz]
  · intro hsz
    have : mkDefaultHeader n = mkDefaultHeader m := by simp [mkDefaultHeader, hsz]
    rw [this]

/-- **C9 witness.** Two payload types of size 4 (e.g. `int` and `float`)
produce identical headers and identical lookups. -/
theorem header_constant_typeId_witness :
    (mkDefaultHeader 4).typeId = 12345 ∧
    (mkDefaultHeader 4).typeId = (mkDefaultHeader 4).typeId ∧
    (mkDefaultHeader 4 = mkDefaultHeader 4 ↔
      4 % 4294967296 = 4 % 4294967296) ∧
    (4 % 4294967296 = 4 % 4294967296 →
      findBufferPublisher [⟨⟨12345, 4⟩, 4, 0, [0, 0, 0, 0]⟩] (mkDefaultHeader 4) =
        findBufferPublisher [⟨⟨12345, 4⟩, 4, 0, [0, 0, 0, 0]⟩] (mkDefaultHeader 4)) :=
  header_constant_typeId 4 4 [⟨⟨12345, 4⟩, 4, 0, [0, 0, 0, 0]⟩]

/-! ## Claim theorems for the buffer registry -/

/-- Ascending (non-strict) order of registry entries by `typeId` — the
order maintained by the `typeId`-only comparator. -/
def sortedByTypeId (reg : List RegEntry) : Prop :=
  reg.Pairwise (fun a b => a.header.typeId ≤ b.header.typeId)

/-- Strictly ascending `typeId`s: distinct registered types. -/
def strictSortedByTypeId (reg : List RegEntry) : Prop :=
  reg.Pairwise (fun a b => a.header.typeId < b.header.typeId)

/-- Registering a sequence of buffers into an initially empty registry
(each `setBufferPublisher` call performs one ordered insertion). -/
def registerAll (ents : List RegEntry) : List RegEntry :=
  ents.foldl (fun r e => insertEntry e r) []

theorem mem_insertEntry (e y : RegEntry) (l : List RegEntry) :
    y ∈ insertEntry e l ↔ y = e ∨ y ∈ l := by
  induction l with
  | nil => simp [insertEntry]
  | cons x xs ih =>
      simp only [insertEntry]
      split
      · simp [or_comm, or_left_comm]
      · simp [ih]
        tauto

theorem insertEntry_sorted (e : RegEntry) (l : List RegEntry)
    (hl : sortedByTypeId l) : sortedByTypeId (insertEntry e l) := by
  induction l with
  | nil => simp [insertEntry, sortedByTypeId]
  | cons x xs ih =>
      rw [sortedByTypeId, List.pairwise_cons] at hl
      obtain ⟨hx, hxs⟩ := hl
      by_cases hlt : e.header.typeId < x.header.typeId
      · have : insertEntry e (x :: xs) = e :: x :: xs := by
          simp [insertEntry, hlt]
        rw [this, sortedByTypeId, List.pairwise_cons]
        refine ⟨?_, ?_⟩
        · intro y hy
          rcases List.mem_cons.mp hy with rfl | hy
          · omega
          · have := hx y hy
            omega
        · rw [List.pairwise_cons]
          exact ⟨hx, hxs⟩
      · have : insertEntry e (x :: xs) = x :: insertEntry e xs := by
          simp [insertEntry, hlt]
        rw [this, sortedByTypeId, List.pairwise_cons]
        refine ⟨?_, ih hxs⟩
        intro y hy
        rcases (mem_insertEntry e y xs).mp hy with rfl | hy
        · omega
        · exact hx y hy

theorem registerAll_sorted (ents : List RegEntry) :
    sortedByTypeId (registerAll ents) := by
  have key : ∀ (l : List RegEntry) (acc : List RegEntry), sortedByTypeId acc →
      sortedByTypeId (l.foldl (fun r e => insertEntry e r) acc) := by
    intro l
    induction l with
    | nil => intro acc hacc; simpa using hacc
    | cons e rest ih =>
        intro acc hacc
        exact ih (insertEntry e acc) (insertEntry_sorted e acc hacc)
  exact key ents [] (by simp [sortedByTypeId])

/-- A successful lookup returns an entry whose stored header equals the
queried header (the final `iFind->first == header` test). -/
theorem find_some_header (reg : List RegEntry) (h : Header) (i : Nat)
    (hf : findBufferPublisher reg h = some i) :
    ∃ x, reg.get? i = some x ∧ x.header = h := by
  unfold findBufferPublisher at hf
  split at hf
  · cases hf
  · rename_i x hget
    by_cases hx : x.header = h
    · rw [if_pos hx] at hf
      cases hf
      exact ⟨x, hget, hx⟩
    · rw [if_neg hx] at hf
      cases hf

/-- Lookup of a header absent from the registry yields none. -/
theorem find_none_of_absent (reg : List RegEntry) (h : Header)
    (habs : ∀ x ∈ reg, x.header ≠ h) :
    findBufferPublisher reg h = none := by
  cases hf : findBufferPublisher reg h with
  | none => rfl
  | some i =>
      obtain ⟨x, hget, hx⟩ := find_some_header reg h i hf
      exact absurd hx (habs x (List.get?_mem hget))

/-- Pushing the lookup under a head entry whose `typeId` is below the
query. -/
theorem find_cons_lt (x : RegEntry) (xs : List RegEntry) (h : Header)
    (hlt : x.header.typeId < h.typeId) :
    findBufferPublisher (x :: xs) h =
      (findBufferPublisher xs h).map (· + 1) := by
  unfold findBufferPublisher
  have htw : (x :: xs).takeWhile (fun y => y.header.typeId < h.typeId) =
      x :: xs.takeWhile (fun y => y.header.typeId < h.typeId) := by
    simp [List.takeWhile_cons, hlt]
  rw [htw]
  simp only [List.length_cons, List.get?_cons_succ]
  cases xs.get? ((xs.takeWhile (fun y => y.header.typeId < h.typeId)).length) with
  | none => rfl
  | some y =>
      by_cases hy : y.header = h
      · simp [hy]
      · simp [hy]

/-- On a registry with strictly ascending `typeId`s, lookup of a
registered entry's header finds exactly that entry. -/
theorem find_strict_mem (reg : List RegEntry) (e : RegEntry)
    (hs : strictSortedByTypeId reg) (he : e ∈ reg) :
    ∃ i, findBufferPublisher reg e.header = some i ∧ reg.get? i = some e := by
  induction reg with
  | nil => simp at he
  | cons x xs ih =>
      rw [strictSortedByTypeId, List.pairwise_cons] at hs
      obtain ⟨hx, hxs⟩ := hs
      rcases List.mem_cons.mp he with rfl | he'
      · refine ⟨0, ?_, by simp⟩
        unfold findBufferPublisher
        have htw : (e :: xs).takeWhile (fun y => y.header.typeId < e.header.typeId)
            = [] := by
          simp [List.takeWhile_cons]
        rw [htw]
        simp
      · have hlt : x.header.typeId < e.header.typeId := hx e he'
        obtain ⟨i, hf, hg⟩ := ih hxs he'
        refine ⟨i + 1, ?_, by simpa using hg⟩
        rw [find_cons_lt x xs e.header hlt, hf]
        rfl

/-- **C5.** After any sequence of insertions into an initially empty
registry the entries are sorted ascending by `typeId`; on a registry of
distinct types, `find` of a registered header returns exactly the
registered entry, and `find` of a `typeId` nobody registered returns
none. -/
theorem bufferRegistry_sorted_find (ents reg : List RegEntry) (e : RegEntry)
    (t db : Nat) :
    sortedByTypeId (registerAll ents) ∧
    (strictSortedByTypeId reg → e ∈ reg →
      ∃ i, findBufferPublisher reg e.header = some i ∧ reg.get? i = some e) ∧
    ((∀ x ∈ reg, x.header.typeId ≠ t) →
      findBufferPublisher reg ⟨t, db⟩ = none) := by
  refine ⟨registerAll_sorted ents, fun hs he => find_strict_mem reg e hs he, ?_⟩
  intro habs
  refine find_none_of_absent reg ⟨t, db⟩ ?_
  intro x hx hcontra
  exact habs x hx (by rw [hcontra])

/-- **C5 witness.** Three inserts arriving out of `typeId` order; lookup of
a present and of an absent `typeId` on the sorted result. -/
theorem bufferRegistry_sorted_find_witness :
    sortedByTypeId (registerAll
      [⟨⟨30, 2⟩, 2, 0, [0, 0]⟩, ⟨⟨10, 4⟩, 4, 1, [0, 0, 0, 0]⟩, ⟨⟨20, 1⟩, 1, 2, [0]⟩]) ∧
    (strictSortedByTypeId
        [⟨⟨10, 4⟩, 4, 1, [0, 0, 0, 0]⟩, ⟨⟨20, 1⟩, 1, 2, [0]⟩, ⟨⟨30, 2⟩, 2, 0, [0, 0]⟩] →
      (⟨⟨20, 1⟩, 1, 2, [0]⟩ : RegEntry) ∈
        [⟨⟨10, 4⟩, 4, 1, [0, 0, 0, 0]⟩, ⟨⟨20, 1⟩, 1, 2, [0]⟩, ⟨⟨30, 2⟩, 2, 0, [0, 0]⟩] →
      ∃ i, findBufferPublisher
          [⟨⟨10, 4⟩, 4, 1, [0, 0, 0, 0]⟩, ⟨⟨20, 1⟩, 1, 2, [0]⟩, ⟨⟨30, 2⟩, 2, 0, [0, 0]⟩]
          (⟨⟨20, 1⟩, 1, 2, [0]⟩ : RegEntry).header = some i ∧
        ([⟨⟨10, 4⟩, 4, 1, [0, 0, 0, 0]⟩, ⟨⟨20, 1⟩, 1, 2, [0]⟩,
          ⟨⟨30, 2⟩, 2, 0, [0, 0]⟩] : List RegEntry).get? i =
            some (⟨⟨20, 1⟩, 1, 2, [0]⟩ : RegEntry)) ∧
    ((∀ x ∈ [⟨⟨10, 4⟩, 4, 1, [0, 0, 0, 0]⟩, ⟨⟨20, 1⟩, 1, 2, [0]⟩,
        (⟨⟨30, 2⟩, 2, 0, [0, 0]⟩ : RegEntry)], x.header.typeId ≠ 999) →
      findBufferPublisher
        [⟨⟨10, 4⟩, 4, 1, [0, 0, 0, 0]⟩, ⟨⟨20, 1⟩, 1, 2, [0]⟩, ⟨⟨30, 2⟩, 2, 0, [0, 0]⟩]
        ⟨999, 4⟩ = none) :=
  bufferRegistry_sorted_find
    [⟨⟨30, 2⟩, 2, 0, [0, 0]⟩, ⟨⟨10, 4⟩, 4, 1, [0, 0, 0, 0]⟩, ⟨⟨20, 1⟩, 1, 2, [0]⟩]
    [⟨⟨10, 4⟩, 4, 1, [0, 0, 0, 0]⟩, ⟨⟨20, 1⟩, 1, 2, [0]⟩, ⟨⟨30, 2⟩, 2, 0, [0, 0]⟩]
    ⟨⟨20, 1⟩, 1, 2, [0]⟩ 999 4

/-! ## Claim theorems for the reader error handling -/

/-- **C6.** Completing a header whose `typeId` no registry entry carries,
or whose `dataBytes` differs from the registered entry's (every entry
mismatches in at least one of the two fields), makes `stateComplete` fail
with the fatal size/type assertion: the stream is aborted — nothing is
discarded and no payload byte is written into any registered buffer
(payload transfer would only happen in later `State::Data` reads, which
the abort makes unreachable). -/
theorem reader_unknown_type_fatal (rs : ReaderState)
    (hstate : rs.state = RState.header)
    (hmiss : ∀ x ∈ rs.registry,
      x.header.typeId ≠ (decodeHeader rs.headerBuf).typeId ∨
      x.header.dataBytes ≠ (decodeHeader rs.headerBuf).dataBytes) :
    stateComplete rs = .error .unknownType := by
  have hn : nextStateFrom rs = .ok (.data, []) := by
    unfold nextStateFrom
    rw [hstate]
  have hfind : findBufferPublisher rs.registry (decodeHeader rs.headerBuf) = none := by
    refine find_none_of_absent _ _ ?_
    intro x hx hcontra
    rcases hmiss x hx with hne | hne
    · exact hne (by rw [hcontra])
    · exact hne (by rw [hcontra])
  simp only [stateComplete, hn, bind, Except.bind]
  simp [findStateBuffer, hfind]

/-- **C6 witness.** A wire header `{typeId 999, dataBytes 4}` against a
registry holding only `{typeId 12345, dataBytes 4}`. -/
theorem reader_unknown_type_fatal_witness :
    stateComplete
      { current := ⟨Dest.headerField, 8, 0, none⟩
        state := RState.header
        headerBuf := le32 999 ++ le32 4
        postfixBuf := [10]
        registry := [⟨⟨12345, 4⟩, 4, 0, [0, 0, 0, 0]⟩] } = .error .unknownType :=
  reader_unknown_type_fatal
    { current := ⟨Dest.headerField, 8, 0, none⟩
      state := RState.header
      headerBuf := le32 999 ++ le32 4
      postfixBuf := [10]
      registry := [⟨⟨12345, 4⟩, 4, 0, [0, 0, 0, 0]⟩] } (by rfl) (by decide)

/-! ## The registration window (claim C10) -/

/-- Writing received bytes never changes which region the current buffer
points into. -/
theorem writeDest_dest (rs : ReaderState) (bytes : List Nat) :
    (writeDest rs bytes).current.dest = rs.current.dest := by
  cases hd : rs.current.dest <;> simp [writeDest, hd]

/-- A successful `stateComplete` always leaves a non-null current buffer
(the null case is exactly the asserting branch). -/
theorem stateComplete_ok_dest (rs rs' : ReaderState) (b : Bool) (evs : List Nat)
    (h : stateComplete rs = .ok (b, rs', evs)) :
    rs'.current.dest ≠ Dest.null := by
  unfold stateComplete at h
  cases hnf : nextStateFrom rs with
  | error e => rw [hnf] at h; cases h
  | ok p =>
      obtain ⟨s', evs'⟩ := p
      rw [hnf] at h
      simp only [bind, Except.bind] at h
      split at h
      · split at h <;> cases h
      · rename_i hne
        cases h
        simpa using hne

/-- A successful `stateComplete` reports the completed stage as `true`. -/
theorem stateComplete_ok_true (rs rs' : ReaderState) (b : Bool) (evs : List Nat)
    (h : stateComplete rs = .ok (b, rs', evs)) : b = true := by
  unfold stateComplete at h
  cases hnf : nextStateFrom rs with
  | error e => rw [hnf] at h; cases h
  | ok p =>
      obtain ⟨s', evs'⟩ := p
      rw [hnf] at h
      simp only [bind, Except.bind] at h
      split at h
      · split at h <;> cases h
      · cases h; rfl

/-- One `readBuffer` call: a completed stage rebinds to a non-null buffer,
an incomplete stage leaves the binding where it was. -/
theorem readBufferStep_dest (rs rs' : ReaderState) (st st' : StreamState)
    (b : Bool) (evs : List Nat)
    (h : readBufferStep rs st = .ok (b, rs', st', evs)) :
    (b = true → rs'.current.dest ≠ Dest.null) ∧
    (b = false → rs'.current.dest = rs.current.dest) := by
  unfold readBufferStep at h
  rcases hread : streamRead st rs.current.remaining with ⟨bytes, st2⟩
  rw [hread] at h
  simp only at h
  split at h
  · cases hsc : stateComplete (writeDest rs bytes) with
    | error e => rw [hsc] at h; cases h
    | ok p =>
        obtain ⟨b2, rs2, evs2⟩ := p
        rw [hsc] at h
        cases h
        refine ⟨fun _ => stateComplete_ok_dest _ _ _ _ hsc, fun hb => ?_⟩
        have := stateComplete_ok_true _ _ _ _ hsc
        rw [this] at hb
        cases hb
  · cases h
    refine ⟨?_, ?_⟩
    · intro hb; cases hb
    · intro _; exact writeDest_dest rs _

/-- The `read` loop preserves a non-null current-buffer binding. -/
theorem readLoop_dest (fuel : Nat) :
    ∀ (rs : ReaderState) (st : StreamState) (evs : List Nat) (res : ReadResult),
      rs.current.dest ≠ Dest.null →
      readLoop fuel rs st evs = .ok res →
      res.reader.current.dest ≠ Dest.null := by
  induction fuel with
  | zero =>
      intro rs st evs res hd h
      cases h
      simpa using hd
  | succ n ih =>
      intro rs st evs res hd h
      rw [readLoop] at h
      cases hstep : readBufferStep rs st with
      | error e => rw [hstep] at h; cases h
      | ok q =>
          obtain ⟨b, rs', st', evs'⟩ := q
          rw [hstep] at h
          obtain ⟨hT, hF⟩ := readBufferStep_dest rs rs' st st' b evs' hstep
          cases b with
          | true =>
              simp only at h
              split at h
              · cases h; exact hT rfl
              · exact ih rs' st' (evs ++ evs') res (hT rfl) h
          | false =>
              simp only at h
              cases h
              simpa [hF rfl] using hd

/-- The first read call from a pristine parser (null buffer, `Prefix`
stage, zero requirement) immediately completes the vacuous prefix stage
and binds the header buffer. -/
theorem readCall_fresh (rs : ReaderState) (st : StreamState)
    (h0 : rs.current.dest = Dest.null) (h1 : rs.state = RState.prefixStage)
    (h2 : rs.current.remaining = 0) :
    readCall rs st =
      .ok ⟨true,
        { rs with
          state := RState.header
          current := ⟨Dest.headerField, 0, 8, none⟩ },
        ⟨st.data, st.sched.tail⟩, []⟩ := by
  obtain ⟨⟨dest, pos, rem, pub⟩, s, hb, pb, reg⟩ := rs
  obtain ⟨data, sched⟩ := st
  simp only at h0 h1 h2
  subst h0 h1 h2
  cases sched with
  | nil =>
      simp [readCall, readLoop, readBufferStep, streamRead, writeDest,
        stateComplete, nextStateFrom, findStateBuffer, bind, Except.bind]
  | cons k rest =>
      simp [readCall, readLoop, readBufferStep, streamRead, writeDest,
        stateComplete, nextStateFrom, findStateBuffer, bind, Except.bind]

/-- **C10.** Buffer registration is a one-time setup phase: while the
parser has not begun reading (`currentBuffer_.buffer` still null) an
insertion succeeds and keeps the window open; the first read call closes
the window (binds a non-null buffer), every further successful read keeps
it closed, and any insertion attempted once it is closed fails with the
late-registration assertion. -/
theorem bufferRegistry_registration_window (rs : ReaderState) (st : StreamState)
    (res : ReadResult) (size pubId : Nat) :
    (rs.current.dest = Dest.null →
      setBufferPublisher rs size pubId = .ok { rs with
        registry := insertEntry
          ⟨mkDefaultHeader size, size, pubId, List.replicate size 0⟩
          rs.registry } ∧
      ({ rs with
        registry := insertEntry
          ⟨mkDefaultHeader size, size, pubId, List.replicate size 0⟩
          rs.registry } : ReaderState).current.dest = Dest.null) ∧
    (rs.current.dest = Dest.null → rs.state = RState.prefixStage →
      rs.current.remaining = 0 → readCall rs st = .ok res →
      res.reader.current.dest ≠ Dest.null) ∧
    (rs.current.dest ≠ Dest.null → readCall rs st = .ok res →
      res.reader.current.dest ≠ Dest.null) ∧
    (rs.current.dest ≠ Dest.null →
      setBufferPublisher rs size pubId = .error .lateRegistration) := by
  refine ⟨?_, ?_, ?_, ?_⟩
  · intro hd
    constructor
    · unfold setBufferPublisher
      rw [if_pos hd]
    · simpa using hd
  · intro hd hs hr hread
    rw [readCall_fresh rs st hd hs hr] at hread
    cases hread
    simp
  · intro hd hread
    exact readLoop_dest (st.sched.length + 4) rs st [] res hd hread
  · intro hd
    unfold setBufferPublisher
    rw [if_neg hd]

/-- **C10 witness.** A fresh reader: registering a 4-byte buffer succeeds;
after the first read call (on an empty source) the window is closed and a
second registration fails. -/
theorem bufferRegistry_registration_window_witness :
    (initialReader.current.dest = Dest.null →
      setBufferPublisher initialReader 4 0 = .ok { initialReader with
        registry := insertEntry
          ⟨mkDefaultHeader 4, 4, 0, List.replicate 4 0⟩
          initialReader.registry } ∧
      ({ initialReader with
        registry := insertEntry
          ⟨mkDefaultHeader 4, 4, 0, List.replicate 4 0⟩
          initialReader.registry } : ReaderState).current.dest = Dest.null) ∧
    (initialReader.current.dest = Dest.null →
      initialReader.state = RState.prefixStage →
      initialReader.current.remaining = 0 →
      readCall initialReader ⟨[], []⟩ =
        .ok ⟨true,
          { initialReader with
            state := RState.header
            current := ⟨Dest.headerField, 0, 8, none⟩ }, ⟨[], []⟩, []⟩ →
      (⟨true,
          { initialReader with
            state := RState.header
            current := ⟨Dest.headerField, 0, 8, none⟩ }, ⟨[], []⟩,
          []⟩ : ReadResult).reader.current.dest ≠ Dest.null) ∧
    (initialReader.current.dest ≠ Dest.null →
      readCall initialReader ⟨[], []⟩ =
        .ok ⟨true,
          { initialReader with
            state := RState.header
            current := ⟨Dest.headerField, 0, 8, none⟩ }, ⟨[], []⟩, []⟩ →
      (⟨true,
          { initialReader with
            state := RState.header
            current := ⟨Dest.headerField, 0, 8, none⟩ }, ⟨[], []⟩,
          []⟩ : ReadResult).reader.current.dest ≠ Dest.null) ∧
    (initialReader.current.dest ≠ Dest.null →
      setBufferPublisher initialReader 4 0 = .error .lateRegistration) :=
  bufferRegistry_registration_window initialReader ⟨[], []⟩
    ⟨true,
      { initialReader with
        state := RState.header
        current := ⟨Dest.headerField, 0, 8, none⟩ }, ⟨[], []⟩, []⟩ 4 0

/-! ## Round-trip and read-return behaviour (claims C1, C4) -/

/-- The reader holding one registered 4-byte buffer (notify id 0), as
produced by `setBufferPublisher` on a fresh reader. -/
def c1Reader : ReaderState :=
  { initialReader with registry := [⟨⟨12345, 4⟩, 4, 0, [0, 0, 0, 0]⟩] }

/-- `c1Reader` after its first `read` call: the vacuous prefix stage has
completed and the header buffer is bound. -/
def c1AfterFirstRead : ReaderState :=
  { c1Reader with
    state := RState.header
    current := ⟨Dest.headerField, 0, 8, none⟩ }

/-- **C1 (failing evaluation).** Feeding `read` the exact bytes that
`write` produced for the 4-byte value `7` does not complete a frame:
the reader's prefix stage consumes zero bytes (`findStateBuffer` maps
`State::Prefix` to a null zero-length buffer), so the first call returns
`true` spuriously without consuming anything, and the next call reads the
4 magic bytes plus the first half of the real header as the header
`{typeId 0x30425553, dataBytes 12345}`, whose registry lookup fails —
tripping the fatal size/type assertion.  No `onBufferComplete`
notification ever fires and the bound buffer never receives the value. -/
theorem reader_roundtrip_bug :
    setBufferPublisher initialReader 4 0 = .ok c1Reader ∧
    readCall c1Reader ⟨binaryWrite [7, 0, 0, 0], [17, 17, 17]⟩ =
      .ok ⟨true, c1AfterFirstRead, ⟨binaryWrite [7, 0, 0, 0], [17, 17]⟩, []⟩ ∧
    readCall c1AfterFirstRead ⟨binaryWrite [7, 0, 0, 0], [17, 17]⟩ =
      .error .unknownType := by
  exact ⟨rfl, rfl, rfl⟩

/-- **C4 (failing evaluation).** The very first `read` call on a fresh
reader whose source delivers no bytes returns `true` — although no frame
(no postfix) was completed, no `onBufferComplete` event fired, and the
claim (like the function's own documentation) requires `false`; the
parser state also advances from `Prefix` to `Header` rather than staying
unchanged. -/
theorem reader_first_read_spurious_true :
    readCall initialReader ⟨[], []⟩ =
      .ok ⟨true,
        { initialReader with
          state := RState.header
          current := ⟨Dest.headerField, 0, 8, none⟩ }, ⟨[], []⟩, []⟩ := rfl

end Sub0
